import Mathlib

/-!
Shallow embedding of `src/main.py` (Gabor texture batch filter).

The script has two functions:
  * `extraire_texture_gabor` — load one image, grayscale it, build a Gabor
    kernel, convolve, returning `(basename, filtered-or-None)`;
  * `balayer_et_traiter_images` — glob `frag_eroded_*.ppm` under a root,
    sort, and run the filter step per file, writing PNG outputs under
    `textures_traitees`.

Modelling choices, all taken from the source:
  * Filenames and paths are `List Char` (Python `str` of the relevant
    operations: `os.path.basename`, `str.replace`, lexicographic `sorted`).
  * The filesystem is a directory listing `dirList : List (List Char)`
    (names in the root directory) plus `load : List Char → Option Image`
    giving the result of `cv2.imread` at a full path (`none` = unreadable file,
    which is how `imread` reports failure).
  * `Image` carries width, height, channel count, bit depth and a flat
    pixel buffer, as an OpenCV `Mat` does.
  * The float coefficients of the Gabor kernel are transcendental
    (exp/cos of the parameters); the kernel record keeps the exact
    parameters `cv2.getGaborKernel` receives, and the numeric convolution
    response is a parameter `conv` of the model, saturate-cast to 8 bits
    exactly as OpenCV casts to `CV_8U`.  Every claim below holds for every
    `conv`, i.e. independently of the float arithmetic of the library.
  * `np.pi / 4` is represented exactly: rational parameters, with theta
    stored as its rational multiple of pi (`thetaOverPi`).
  * Python exceptions become `Except`: `cv2.cvtColor` raises on a source
    whose channel count is not 3, the other stages are total; the
    `try/except` of the source is the `match` on the `Except` pipeline.
  * Console output becomes a `LogEntry` list (one constructor per `print`
    call of the source); `os.makedirs` calls are recorded in
    `dirsCreated`, `cv2.imwrite` calls in `writes`.
-/

/-- An OpenCV image (`numpy` array): spatial size, channels, bit depth and
flat pixel data. `cv2.imread` produces 8-bit 3-channel images on success. -/
structure Image where
  width : Nat
  height : Nat
  channels : Nat
  depth : Nat
  data : List Nat
deriving Repr, DecidableEq

/-- Parameters with which `cv2.getGaborKernel((ksize, ksize), sigma, theta,
lambd, gamma, psi)` is called; its coefficient array is a deterministic
function of exactly these fields. `thetaOverPi` and `psiOverPi` store the
angles as rational multiples of pi so that `np.pi / 4` is exact. -/
structure GaborKernel where
  rows : Nat
  cols : Nat
  sigma : Rat
  thetaOverPi : Rat
  lambd : Rat
  gamma : Rat
  psiOverPi : Rat
deriving Repr, DecidableEq

/-- One console line of the script (one constructor per `print` call). -/
inductive LogEntry where
  /-- Console line `Erreur: Impossible de charger ...` -/
  | loadError (path : List Char)
  /-- Console line `Une erreur est survenue lors du traitement de ...` -/
  | procError (path : List Char) (msg : List Char)
  /-- Console line `Aucune image .ppm trouvee dans le repertoire ...` -/
  | noImages (root : List Char)
  /-- Console line `Demarrage du traitement de N images...` -/
  | startMsg (n : Nat)
  /-- Console line `Texture extraite de ... (forme ...)` -/
  | extracted (name : List Char) (shape : Nat × Nat)
  /-- Console line `Image de texture enregistree ...` -/
  | saved (path : List Char)
  /-- Console line `Traitement termine.` -/
  | done
deriving Repr, DecidableEq

/-- Python string comparison (`sorted` on `str`): lexicographic by code
point, a proper prefix sorts first. -/
def lexLe : List Char → List Char → Bool
  | [], _ => true
  | _ :: _, [] => false
  | a :: as, b :: bs => if a = b then lexLe as bs else decide (a < b)

/-- The order relation `sorted` uses, as a `Prop`. -/
def StrLe (a b : List Char) : Prop := lexLe a b = true

instance : DecidableRel StrLe := fun a b => by
  unfold StrLe; infer_instance

/-- Python `os.path.basename`: the part of the path after the last separator
(the script runs on a Windows path, so both separators are cut). -/
def basename (p : List Char) : List Char :=
  (p.reverse.takeWhile (fun c => decide (c ≠ '/') && decide (c ≠ '\\'))).reverse

/-- Python `os.path.join` of the model (one separator convention throughout). -/
def joinPath (a b : List Char) : List Char := a ++ '/' :: b

/-- The literal `frag_eroded_` of the glob pattern. -/
def fragPrefix : List Char := "frag_eroded_".toList

/-- The literal `.ppm` of the glob pattern. -/
def ppmSuffix : List Char := ".ppm".toList

/-- Whether a directory entry matches the glob `frag_eroded_*.ppm`
(`*` matches any, possibly empty, run of characters). -/
def matchesGlob (name : List Char) : Bool :=
  fragPrefix.isPrefixOf name && ppmSuffix.isSuffixOf name &&
    decide (fragPrefix.length + ppmSuffix.length ≤ name.length)

/-- Python `nom_fichier.replace(.ppm, .png)`: replace every
(leftmost-first, non-overlapping) occurrence of `.ppm` by `.png`. -/
def replacePpmPng : List Char → List Char
  | '.' :: 'p' :: 'p' :: 'm' :: rest => '.' :: 'p' :: 'n' :: 'g' :: replacePpmPng rest
  | c :: rest => c :: replacePpmPng rest
  | [] => []

/-- Whether `.ppm` occurs as a substring. -/
def containsPpm : List Char → Bool
  | [] => false
  | c :: rest => ppmSuffix.isPrefixOf (c :: rest) || containsPpm rest

/-- OpenCV `saturate_cast<uchar>`: clamp to `[0, 255]`. -/
def saturateCast8U (v : Int) : Nat := (max 0 (min 255 v)).toNat

/-- OpenCV type codes used by the script. `CV_8UC3 = CV_MAKETYPE(CV_8U, 3)`. -/
def CV_8U : Nat := 0

/-- Constant `cv2.CV_8UC3 = 16`; the script passes it as the `ddepth` of `filter2D`. -/
def CV_8UC3 : Nat := 16

/-- Macro `CV_MAT_DEPTH` of OpenCV: the depth part of a type code (low 3 bits). -/
def CV_MAT_DEPTH (t : Nat) : Nat := t % 8

/-- Bit width of an OpenCV depth code (`CV_8U/CV_8S → 8`, …). -/
def bitsOfDepth : Nat → Nat
  | 0 => 8 | 1 => 8 | 2 => 16 | 3 => 16 | 4 => 32 | 5 => 32 | 6 => 64 | _ => 0

/-- One grayscale sample from a BGR triple, the OpenCV fixed-point luminance
`(B*3735 + G*19235 + R*9798 + 2^14) >> 15` (coefficients 0.114/0.587/0.299). -/
def bgrToGrayPixel (b g r : Nat) : Nat := (b * 3735 + g * 19235 + r * 9798 + 16384) / 32768

/-- Luminance of a flat `[B, G, R, B, G, R, …]` buffer. -/
def grayData : List Nat → List Nat
  | b :: g :: r :: rest => bgrToGrayPixel b g r :: grayData rest
  | _ => []

/-- Constant `cv2.COLOR_BGR2GRAY`. -/
def COLOR_BGR2GRAY : Nat := 6

/-- Function `cv2.cvtColor(img, cv2.COLOR_BGR2GRAY)`: raises (`.error`) when the
source does not have 3 channels, else a 1-channel image of the same size. -/
def cvtColor (img : Image) (code : Nat) : Except (List Char) Image :=
  if code = COLOR_BGR2GRAY then
    if img.channels = 3 then
      .ok { width := img.width, height := img.height, channels := 1,
            depth := img.depth, data := grayData img.data }
    else .error "cvtColor: invalid number of channels".toList
  else .error "cvtColor: unsupported conversion code".toList

/-- Function `cv2.getGaborKernel((kw, kh), sigma, theta, lambd, gamma, psi)`: total,
it just evaluates the Gabor formula over the grid, so the kernel is the
record of its parameters. -/
def getGaborKernel (kw kh : Nat) (sigma thetaOverPi lambd gamma psiOverPi : Rat) :
    Except (List Char) GaborKernel :=
  .ok { rows := kh, cols := kw, sigma := sigma, thetaOverPi := thetaOverPi,
        lambd := lambd, gamma := gamma, psiOverPi := psiOverPi }

/-- The abstraction, in the model, of the float convolution: the raw (pre-cast)
response of the kernel on a pixel buffer at a flat index. -/
def ConvFun : Type := GaborKernel → List Nat → Nat → Int

/-- Function `cv2.filter2D(src, ddepth, kernel)`: same spatial size and channel
count as `src`, depth taken from `CV_MAT_DEPTH(ddepth)`, each sample the
saturate-cast of the convolution response. -/
def filter2D (conv : ConvFun) (src : Image) (ddepth : Nat) (kernel : GaborKernel) :
    Except (List Char) Image :=
  .ok { width := src.width, height := src.height, channels := src.channels,
        depth := bitsOfDepth (CV_MAT_DEPTH ddepth),
        data := (List.range src.data.length).map
          (fun i => saturateCast8U (conv kernel src.data i)) }

/-- The three processing stages inside the `try` of
`extraire_texture_gabor`, chained so that an exception in any stage aborts. -/
def gaborPipeline (conv : ConvFun) (img : Image) (ksize : Nat)
    (sigma thetaOverPi lambd gamma : Rat) : Except (List Char) Image := do
  let gray ← cvtColor img COLOR_BGR2GRAY
  let kernel ← getGaborKernel ksize ksize sigma thetaOverPi lambd gamma 0
  filter2D conv gray CV_8UC3 kernel

/-- Result-and-console-output of one `extraire_texture_gabor` call. -/
structure StepResult where
  result : List Char × Option Image
  logs : List LogEntry
deriving Repr, DecidableEq

/-- Function `extraire_texture_gabor` with its console output: `imread` failure
(`load = none`) and any exception of the pipeline are both turned into
`(basename, None)` plus one printed line; nothing propagates. -/
def extraireRun (conv : ConvFun) (load : List Char → Option Image)
    (image_path : List Char) (ksize : Nat)
    (sigma thetaOverPi lambd gamma : Rat) : StepResult :=
  match load image_path with
  | none => { result := (basename image_path, none), logs := [.loadError image_path] }
  | some img =>
    match gaborPipeline conv img ksize sigma thetaOverPi lambd gamma with
    | .ok filtered => { result := (basename image_path, some filtered), logs := [] }
    | .error e => { result := (basename image_path, none), logs := [.procError image_path e] }

/-- The value `extraire_texture_gabor` returns to its caller (defaults as
in the source: `ksize=31, sigma=4.0, theta=pi/4, lambd=10.0, gamma=0.5`). -/
def extraire_texture_gabor (conv : ConvFun) (load : List Char → Option Image)
    (image_path : List Char) (ksize : Nat := 31) (sigma : Rat := 4)
    (thetaOverPi : Rat := 1/4) (lambd : Rat := 10) (gamma : Rat := 1/2) :
    List Char × Option Image :=
  (extraireRun conv load image_path ksize sigma thetaOverPi lambd gamma).result

/-- Observable outcome of one `balayer_et_traiter_images` run: the paths
passed to the filter step in order, the console output, the `os.makedirs`
calls, and the `cv2.imwrite` calls (path, image). -/
structure RunResult where
  processed : List (List Char)
  logs : List LogEntry
  dirsCreated : List (List Char)
  writes : List (List Char × Image)
deriving Repr, DecidableEq

/-- The fixed `gabor_params` dictionary of the batch runner applied to one
path: `ksize=31, sigma=5.0, theta=np.pi/4, lambd=10.0, gamma=0.5`. -/
def runStep (conv : ConvFun) (load : List Char → Option Image)
    (image_path : List Char) : StepResult :=
  extraireRun conv load image_path 31 5 (1/4) 10 (1/2)

/-- The name of the output subdirectory, `textures_traitees`. -/
def outDirName : List Char := "textures_traitees".toList

/-- Output name `texture_` followed by the replaced input name. -/
def outFileName (nom_fichier : List Char) : List Char :=
  "texture_".toList ++ replacePpmPng nom_fichier

/-- Path `os.path.join(repertoire_racine, textures_traitees)`. -/
def outDir (root : List Char) : List Char := joinPath root outDirName

/-- Full output path for the basename of a processed file. -/
def outPath (root nom_fichier : List Char) : List Char :=
  joinPath (outDir root) (outFileName nom_fichier)

/-- The `for image_path in image_files:` loop body, iterated: on a present
result print, `makedirs`, `imwrite`, print; on an absent result do nothing
more (the filter step already printed). -/
def processLoop (conv : ConvFun) (root : List Char)
    (load : List Char → Option Image) : List (List Char) → RunResult
  | [] => { processed := [], logs := [], dirsCreated := [], writes := [] }
  | p :: rest =>
    let s := runStep conv load p
    let tail := processLoop conv root load rest
    match s.result.2 with
    | some im =>
      { processed := p :: tail.processed
        logs := s.logs ++
          .extracted s.result.1 (im.height, im.width) ::
          .saved (outPath root s.result.1) :: tail.logs
        dirsCreated := outDir root :: tail.dirsCreated
        writes := (outPath root s.result.1, im) :: tail.writes }
    | none =>
      { processed := p :: tail.processed
        logs := s.logs ++ tail.logs
        dirsCreated := tail.dirsCreated
        writes := tail.writes }

/-- What one loop iteration writes for one path: the output file and image
when the filter step returned a present result, nothing otherwise. -/
def stepWrite (conv : ConvFun) (root : List Char) (load : List Char → Option Image)
    (p : List Char) : Option (List Char × Image) :=
  match (runStep conv load p).result.2 with
  | some im => some (outPath root (runStep conv load p).result.1, im)
  | none => none

/-- What one loop iteration prints for one path (what the filter step itself printed followed, on success, by the extraction and save lines). -/
def stepLogs (conv : ConvFun) (root : List Char) (load : List Char → Option Image)
    (p : List Char) : List LogEntry :=
  let s := runStep conv load p
  match s.result.2 with
  | some im => s.logs ++
      [.extracted s.result.1 (im.height, im.width), .saved (outPath root s.result.1)]
  | none => s.logs

/-- Expression `sorted(glob.glob(os.path.join(repertoire_racine, ...)))`:
the matching directory entries, joined to the root, lexicographically
sorted. -/
def image_files (root : List Char) (dirList : List (List Char)) : List (List Char) :=
  List.insertionSort StrLe ((dirList.filter matchesGlob).map (joinPath root))

/-- Function `balayer_et_traiter_images(repertoire_racine)` over the modelled
filesystem: early return when nothing matches, otherwise the start
message, the per-file loop and the completion message. -/
def balayer_et_traiter_images (conv : ConvFun) (root : List Char)
    (dirList : List (List Char)) (load : List Char → Option Image) : RunResult :=
  let files := image_files root dirList
  if files.isEmpty then
    { processed := [], logs := [.noImages root], dirsCreated := [], writes := [] }
  else
    let r := processLoop conv root load files
    { r with logs := .startMsg files.length :: r.logs ++ [.done] }

/-- A failure line on the console (the two `print`s in the failure paths
of the filter step). -/
def isFailureLog : LogEntry → Bool
  | .loadError _ => true
  | .procError _ _ => true
  | _ => false

/-- The naming rule the specification states for C2: strip the final
`.ppm` extension, add `.png`, prefix `texture_`, and change nothing else.
Modelled from the words of the spec, for comparison with `outFileName`. -/
def specOutFileName (nom_fichier : List Char) : List Char :=
  "texture_".toList ++ nom_fichier.take (nom_fichier.length - 4) ++ ".png".toList

/-! ## Order facts for the lexicographic comparison `sorted` uses -/

theorem lexLe_total : ∀ a b : List Char, lexLe a b = true ∨ lexLe b a = true := by
  intro a
  induction a with
  | nil => intro b; left; rfl
  | cons x xs ih =>
    intro b
    cases b with
    | nil => right; rfl
    | cons y ys =>
      by_cases hxy : x = y
      · subst hxy
        rcases ih ys with h | h
        · left; simpa [lexLe] using h
        · right; simpa [lexLe] using h
      · rcases lt_or_gt_of_ne hxy with h | h
        · left; simp [lexLe, hxy, h]
        · right; simp [lexLe, Ne.symm hxy, h]

theorem lexLe_trans : ∀ a b c : List Char,
    lexLe a b = true → lexLe b c = true → lexLe a c = true := by
  intro a
  induction a with
  | nil => intro b c _ _; rfl
  | cons x xs ih =>
    intro b c hab hbc
    cases b with
    | nil => simp [lexLe] at hab
    | cons y ys =>
      cases c with
      | nil => simp [lexLe] at hbc
      | cons z zs =>
        simp only [lexLe] at hab hbc ⊢
        by_cases hxy : x = y <;> by_cases hyz : y = z
        · subst hxy; subst hyz
          rw [if_pos rfl] at hab hbc ⊢
          exact ih ys zs hab hbc
        · subst hxy
          rw [if_pos rfl] at hab
          rw [if_neg hyz] at hbc ⊢
          exact hbc
        · subst hyz
          rw [if_neg hxy] at hab
          rw [if_pos rfl] at hbc
          rw [if_neg hxy]
          exact hab
        · rw [if_neg hxy] at hab
          rw [if_neg hyz] at hbc
          have hxz : x < z := lt_trans (of_decide_eq_true hab) (of_decide_eq_true hbc)
          rw [if_neg (ne_of_lt hxz)]
          exact decide_eq_true hxz

theorem lexLe_antisymm : ∀ a b : List Char,
    lexLe a b = true → lexLe b a = true → a = b := by
  intro a
  induction a with
  | nil =>
    intro b _ hba
    cases b with
    | nil => rfl
    | cons y ys => simp [lexLe] at hba
  | cons x xs ih =>
    intro b hab hba
    cases b with
    | nil => simp [lexLe] at hab
    | cons y ys =>
      simp only [lexLe] at hab hba
      by_cases hxy : x = y
      · subst hxy
        rw [if_pos rfl] at hab hba
        rw [ih ys hab hba]
      · rw [if_neg hxy] at hab
        rw [if_neg (Ne.symm hxy)] at hba
        exact absurd (of_decide_eq_true hba) (lt_asymm (of_decide_eq_true hab))

/-! ## Facts about the output-name computation (`str.replace`) -/

theorem replacePpmPng_cons_skip (c : Char) (l : List Char)
    (h : ppmSuffix.isPrefixOf (c :: l) = false) :
    replacePpmPng (c :: l) = c :: replacePpmPng l := by
  rw [replacePpmPng.eq_def]
  split
  · rename_i rest heq
    exfalso
    rw [show c :: l = '.' :: 'p' :: 'p' :: 'm' :: rest from heq] at h
    simp [ppmSuffix, List.isPrefixOf] at h
  · rename_i c2 rest2 heq
    injection heq with h1 h2
    subst h1; subst h2
    rfl
  · rename_i heq
    exact absurd heq (List.cons_ne_nil c l)

theorem not_prefix_append (s : List Char) (hs : containsPpm s = false) (hne : s ≠ []) :
    ppmSuffix.isPrefixOf (s ++ ppmSuffix) = false := by
  have e1 : ('p' == '.') = false := rfl
  have e2 : ('m' == 'p') = false := rfl
  have e3 : ('m' == '.') = false := rfl
  rcases s with _ | ⟨a, _ | ⟨b, _ | ⟨c, _ | ⟨d, ds⟩⟩⟩⟩
  · exact absurd rfl hne
  · simp [ppmSuffix, List.isPrefixOf, e1]
  · simp [ppmSuffix, List.isPrefixOf, e2]
  · simp [ppmSuffix, List.isPrefixOf, e3]
  · simp only [containsPpm, Bool.or_eq_false_iff] at hs
    simp only [ppmSuffix, List.isPrefixOf, List.cons_append] at hs ⊢
    exact hs.1

theorem replacePpmPng_append_ppm (s : List Char) (hs : containsPpm s = false) :
    replacePpmPng (s ++ ppmSuffix) = s ++ ".png".toList := by
  induction s with
  | nil => rfl
  | cons a s ih =>
    have hpre : ppmSuffix.isPrefixOf ((a :: s) ++ ppmSuffix) = false :=
      not_prefix_append (a :: s) hs (List.cons_ne_nil a s)
    rw [List.cons_append, replacePpmPng_cons_skip a (s ++ ppmSuffix)
      (by rw [← List.cons_append]; exact hpre)]
    have hs' : containsPpm s = false := by
      simp only [containsPpm, Bool.or_eq_false_iff] at hs
      exact hs.2
    rw [ih hs', List.cons_append]

theorem replacePpmPng_through_stem (t x : List Char) (ht : ∀ c ∈ t, c ≠ '.') :
    replacePpmPng (t ++ x) = t ++ replacePpmPng x := by
  induction t with
  | nil => rfl
  | cons a t ih =>
    have ha : a ≠ '.' := ht a (List.mem_cons_self a t)
    have hpre : ppmSuffix.isPrefixOf (a :: (t ++ x)) = false := by
      simp only [ppmSuffix, List.isPrefixOf, Bool.and_eq_false_iff]
      left
      simpa [beq_iff_eq] using fun h => ha h.symm
    rw [List.cons_append, replacePpmPng_cons_skip a (t ++ x) hpre,
      ih (fun c hc => ht c (List.mem_cons_of_mem a hc)), List.cons_append]

/-! ## Facts about the filter step -/

theorem extraireRun_fst (conv : ConvFun) (load : List Char → Option Image)
    (path : List Char) (ksize : Nat) (sigma thetaOverPi lambd gamma : Rat) :
    (extraireRun conv load path ksize sigma thetaOverPi lambd gamma).result.1 = basename path := by
  unfold extraireRun
  cases load path with
  | none => rfl
  | some img =>
    dsimp only
    cases gaborPipeline conv img ksize sigma thetaOverPi lambd gamma <;> rfl

theorem gaborPipeline_ok (conv : ConvFun) (img : Image) (ksize : Nat)
    (sigma thetaOverPi lambd gamma : Rat) (hch : img.channels = 3) :
    gaborPipeline conv img ksize sigma thetaOverPi lambd gamma =
      filter2D conv { width := img.width, height := img.height, channels := 1,
                      depth := img.depth, data := grayData img.data } CV_8UC3
        { rows := ksize, cols := ksize, sigma := sigma, thetaOverPi := thetaOverPi,
          lambd := lambd, gamma := gamma, psiOverPi := 0 } := by
  unfold gaborPipeline cvtColor getGaborKernel
  simp only [hch, if_pos rfl, if_true]
  rfl

theorem runStep_success (conv : ConvFun) (load : List Char → Option Image)
    (p : List Char) (img : Image) (hload : load p = some img) (hch : img.channels = 3) :
    runStep conv load p =
      { result := (basename p, some
          { width := img.width, height := img.height, channels := 1, depth := 8,
            data := (List.range (grayData img.data).length).map
              (fun i => saturateCast8U (conv
                { rows := 31, cols := 31, sigma := 5, thetaOverPi := 1/4,
                  lambd := 10, gamma := 1/2, psiOverPi := 0 } (grayData img.data) i)) }),
        logs := [] } := by
  unfold runStep extraireRun
  rw [hload]
  dsimp only
  rw [gaborPipeline_ok conv img 31 5 (1/4) 10 (1/2) hch]
  rfl

theorem runStep_corrupt (conv : ConvFun) (load : List Char → Option Image)
    (p : List Char) (hload : load p = none) :
    runStep conv load p =
      { result := (basename p, none), logs := [LogEntry.loadError p] } := by
  unfold runStep extraireRun
  rw [hload]

theorem stepWrite_none_of_corrupt (conv : ConvFun) (root : List Char)
    (load : List Char → Option Image) (p : List Char) (hload : load p = none) :
    stepWrite conv root load p = none := by
  unfold stepWrite
  rw [runStep_corrupt conv load p hload]

theorem stepWrite_isSome_of_valid (conv : ConvFun) (root : List Char)
    (load : List Char → Option Image) (p : List Char) (img : Image)
    (hload : load p = some img) (hch : img.channels = 3) :
    (stepWrite conv root load p).isSome = true := by
  unfold stepWrite
  rw [runStep_success conv load p img hload hch]
  rfl

theorem stepLogs_corrupt_filter (conv : ConvFun) (root : List Char)
    (load : List Char → Option Image) (p : List Char) (hload : load p = none) :
    (stepLogs conv root load p).filter isFailureLog = [LogEntry.loadError p] := by
  unfold stepLogs
  rw [runStep_corrupt conv load p hload]
  rfl

theorem stepLogs_valid_filter (conv : ConvFun) (root : List Char)
    (load : List Char → Option Image) (p : List Char) (img : Image)
    (hload : load p = some img) (hch : img.channels = 3) :
    (stepLogs conv root load p).filter isFailureLog = [] := by
  unfold stepLogs
  rw [runStep_success conv load p img hload hch]
  rfl

theorem stepWrite_eq_some (conv : ConvFun) (root : List Char)
    (load : List Char → Option Image) (p : List Char) (im : Image)
    (hp : (runStep conv load p).result.2 = some im) :
    stepWrite conv root load p =
      some (outPath root (runStep conv load p).result.1, im) := by
  unfold stepWrite
  rw [hp]

theorem stepWrite_eq_none (conv : ConvFun) (root : List Char)
    (load : List Char → Option Image) (p : List Char)
    (hp : (runStep conv load p).result.2 = none) :
    stepWrite conv root load p = none := by
  unfold stepWrite
  rw [hp]

theorem stepLogs_eq_some (conv : ConvFun) (root : List Char)
    (load : List Char → Option Image) (p : List Char) (im : Image)
    (hp : (runStep conv load p).result.2 = some im) :
    stepLogs conv root load p = (runStep conv load p).logs ++
      [.extracted (runStep conv load p).result.1 (im.height, im.width),
       .saved (outPath root (runStep conv load p).result.1)] := by
  unfold stepLogs
  dsimp only
  rw [hp]

theorem stepLogs_eq_none (conv : ConvFun) (root : List Char)
    (load : List Char → Option Image) (p : List Char)
    (hp : (runStep conv load p).result.2 = none) :
    stepLogs conv root load p = (runStep conv load p).logs := by
  unfold stepLogs
  dsimp only
  rw [hp]

theorem processLoop_processed (conv : ConvFun) (root : List Char)
    (load : List Char → Option Image) :
    ∀ l, (processLoop conv root load l).processed = l := by
  intro l
  induction l with
  | nil => rfl
  | cons p rest ih =>
    unfold processLoop
    cases h : (runStep conv load p).result.2 <;> simp [h, ih]

theorem processLoop_writes (conv : ConvFun) (root : List Char)
    (load : List Char → Option Image) :
    ∀ l, (processLoop conv root load l).writes = l.filterMap (stepWrite conv root load) := by
  intro l
  induction l with
  | nil => rfl
  | cons p rest ih =>
    rw [List.filterMap_cons]
    unfold processLoop
    cases h : (runStep conv load p).result.2 with
    | none => rw [stepWrite_eq_none conv root load p h]; simp [h, ih]
    | some im => rw [stepWrite_eq_some conv root load p im h]; simp [h, ih]

theorem processLoop_logs (conv : ConvFun) (root : List Char)
    (load : List Char → Option Image) :
    ∀ l, (processLoop conv root load l).logs = l.flatMap (stepLogs conv root load) := by
  intro l
  induction l with
  | nil => rfl
  | cons p rest ih =>
    rw [List.flatMap_cons]
    unfold processLoop
    cases h : (runStep conv load p).result.2 with
    | none => rw [stepLogs_eq_none conv root load p h]; simp [h, ih]
    | some im => rw [stepLogs_eq_some conv root load p im h]; simp [h, ih]

theorem processLoop_dirs (conv : ConvFun) (root : List Char)
    (load : List Char → Option Image) :
    ∀ l, (processLoop conv root load l).dirsCreated =
      (processLoop conv root load l).writes.map (fun _ => outDir root) := by
  intro l
  induction l with
  | nil => rfl
  | cons p rest ih =>
    unfold processLoop
    cases h : (runStep conv load p).result.2 <;> simp [h, ih]

/-! ## Facts about the batch runner -/

theorem balayer_processed (conv : ConvFun) (root : List Char)
    (dirList : List (List Char)) (load : List Char → Option Image) :
    (balayer_et_traiter_images conv root dirList load).processed = image_files root dirList := by
  unfold balayer_et_traiter_images
  by_cases h : (image_files root dirList).isEmpty
  · rw [if_pos h]
    exact (List.isEmpty_iff.mp h).symm
  · rw [if_neg h]
    exact processLoop_processed conv root load (image_files root dirList)

theorem balayer_writes (conv : ConvFun) (root : List Char)
    (dirList : List (List Char)) (load : List Char → Option Image) :
    (balayer_et_traiter_images conv root dirList load).writes =
      (image_files root dirList).filterMap (stepWrite conv root load) := by
  unfold balayer_et_traiter_images
  by_cases h : (image_files root dirList).isEmpty
  · rw [if_pos h, List.isEmpty_iff.mp h]
    rfl
  · rw [if_neg h]
    exact processLoop_writes conv root load (image_files root dirList)

theorem balayer_dirs (conv : ConvFun) (root : List Char)
    (dirList : List (List Char)) (load : List Char → Option Image) :
    (balayer_et_traiter_images conv root dirList load).dirsCreated =
      (balayer_et_traiter_images conv root dirList load).writes.map (fun _ => outDir root) := by
  unfold balayer_et_traiter_images
  by_cases h : (image_files root dirList).isEmpty
  · rw [if_pos h]
    rfl
  · rw [if_neg h]
    exact processLoop_dirs conv root load (image_files root dirList)

theorem balayer_logs_of_nonempty (conv : ConvFun) (root : List Char)
    (dirList : List (List Char)) (load : List Char → Option Image)
    (h : (image_files root dirList).isEmpty = false) :
    (balayer_et_traiter_images conv root dirList load).logs =
      LogEntry.startMsg (image_files root dirList).length ::
        (image_files root dirList).flatMap (stepLogs conv root load) ++ [LogEntry.done] := by
  unfold balayer_et_traiter_images
  rw [if_neg (by simp [h])]
  dsimp only
  rw [processLoop_logs conv root load (image_files root dirList)]

/-! ## Sorting facts -/

theorem sorted_insertionSort_StrLe (l : List (List Char)) :
    List.Sorted StrLe (List.insertionSort StrLe l) := by
  haveI : IsTotal (List Char) StrLe := ⟨lexLe_total⟩
  haveI : IsTrans (List Char) StrLe := ⟨lexLe_trans⟩
  exact List.sorted_insertionSort StrLe l

theorem insertionSort_StrLe_eq_of_perm {l l' : List (List Char)} (h : l.Perm l') :
    List.insertionSort StrLe l = List.insertionSort StrLe l' := by
  haveI : IsTotal (List Char) StrLe := ⟨lexLe_total⟩
  haveI : IsTrans (List Char) StrLe := ⟨lexLe_trans⟩
  haveI : IsAntisymm (List Char) StrLe := ⟨lexLe_antisymm⟩
  exact List.eq_of_perm_of_sorted
    ((List.perm_insertionSort StrLe l).trans (h.trans (List.perm_insertionSort StrLe l').symm))
    (sorted_insertionSort_StrLe l) (sorted_insertionSort_StrLe l')

theorem insertionSort_StrLe_filter (q : List Char → Bool) (l : List (List Char)) :
    List.insertionSort StrLe (l.filter q) = (List.insertionSort StrLe l).filter q := by
  haveI : IsTotal (List Char) StrLe := ⟨lexLe_total⟩
  haveI : IsTrans (List Char) StrLe := ⟨lexLe_trans⟩
  haveI : IsAntisymm (List Char) StrLe := ⟨lexLe_antisymm⟩
  refine List.eq_of_perm_of_sorted ?_ (sorted_insertionSort_StrLe (l.filter q)) ?_
  · exact (List.perm_insertionSort StrLe (l.filter q)).trans
      ((List.perm_insertionSort StrLe l).symm.filter q)
  · exact List.Pairwise.filter q (sorted_insertionSort_StrLe l)

theorem joinPath_injective (root : List Char) : Function.Injective (joinPath root) := by
  intro a b h
  unfold joinPath at h
  have h2 := List.append_cancel_left h
  injection h2

theorem image_files_eq_of_perm (root : List Char) {dl dl' : List (List Char)}
    (h : dl.Perm dl') : image_files root dl = image_files root dl' := by
  unfold image_files
  exact insertionSort_StrLe_eq_of_perm ((h.filter matchesGlob).map (joinPath root))

theorem image_files_perm (root : List Char) (dl : List (List Char)) :
    (image_files root dl).Perm ((dl.filter matchesGlob).map (joinPath root)) :=
  List.perm_insertionSort StrLe _

theorem image_files_length (root : List Char) (dl : List (List Char)) :
    (image_files root dl).length = (dl.filter matchesGlob).length := by
  rw [(image_files_perm root dl).length_eq, List.length_map]

theorem image_files_erase (root c : List Char) (dl : List (List Char)) :
    image_files root (dl.filter (fun n => decide (n ≠ c))) =
      (image_files root dl).filter (fun x => decide (x ≠ joinPath root c)) := by
  unfold image_files
  rw [← insertionSort_StrLe_filter]
  congr 1
  rw [List.filter_map, List.filter_filter, List.filter_filter]
  congr 1
  apply List.filter_congr
  intro a _
  simp only [Function.comp_apply, Bool.and_comm]
  congr 1
  by_cases hac : a = c
  · subst hac; simp
  · simp only [hac, decide_not]
    have : joinPath root a ≠ joinPath root c := fun h => hac (joinPath_injective root h)
    simp [this, hac]

/-! ## Counting helpers for failure isolation -/

theorem filterMap_length_of_all_isSome {α β : Type} (f : α → Option β) :
    ∀ l : List α, (∀ x ∈ l, (f x).isSome = true) → (l.filterMap f).length = l.length := by
  intro l
  induction l with
  | nil => intro _; rfl
  | cons x rest ih =>
    intro h
    rcases Option.isSome_iff_exists.mp (h x (List.mem_cons_self x rest)) with ⟨b, hb⟩
    rw [List.filterMap_cons, hb]
    simp only [List.length_cons]
    rw [ih (fun y hy => h y (List.mem_cons_of_mem x hy))]

theorem filterMap_length_unique_none {α β : Type} [DecidableEq α] (f : α → Option β) (a : α) :
    ∀ l : List α, l.countP (fun x => decide (x = a)) = 1 →
      (∀ x ∈ l, x = a → f x = none) →
      (∀ x ∈ l, x ≠ a → (f x).isSome = true) →
      (l.filterMap f).length = l.length - 1 := by
  intro l
  induction l with
  | nil => intro h; simp at h
  | cons x rest ih =>
    intro hcount hnone hsome
    rw [List.countP_cons] at hcount
    by_cases hxa : x = a
    · subst hxa
      rw [if_pos (by simp)] at hcount
      have hrest : rest.countP (fun y => decide (y = x)) = 0 := by omega
      have hall : ∀ y ∈ rest, y ≠ x := by
        intro y hy
        have := List.countP_eq_zero.mp hrest y hy
        simpa using this
      rw [List.filterMap_cons, hnone x (List.mem_cons_self x rest) rfl]
      rw [filterMap_length_of_all_isSome f rest
        (fun y hy => hsome y (List.mem_cons_of_mem x hy) (hall y hy))]
      simp
    · rw [if_neg (by simp [hxa])] at hcount
      have hlen : 1 ≤ rest.length := by
        cases rest with
        | nil => simp at hcount
        | cons b bs => simp
      rcases Option.isSome_iff_exists.mp (hsome x (List.mem_cons_self x rest) hxa) with ⟨b, hb⟩
      rw [List.filterMap_cons, hb]
      simp only [List.length_cons]
      rw [ih (by omega) (fun y hy hya => hnone y (List.mem_cons_of_mem x hy) hya)
        (fun y hy hya => hsome y (List.mem_cons_of_mem x hy) hya)]
      omega

theorem filterMap_drop_none {α β : Type} [DecidableEq α] (f : α → Option β) (a : α) :
    ∀ l : List α, (∀ x ∈ l, x = a → f x = none) →
      l.filterMap f = (l.filter (fun x => decide (x ≠ a))).filterMap f := by
  intro l
  induction l with
  | nil => intro _; rfl
  | cons x rest ih =>
    intro h
    have ih' := ih (fun y hy hya => h y (List.mem_cons_of_mem x hy) hya)
    by_cases hxa : x = a
    · subst hxa
      simp only [List.filterMap_cons, h x (List.mem_cons_self x rest) rfl, List.filter_cons]
      rw [if_neg (by simp)]
      exact ih'
    · simp only [List.filter_cons]
      rw [if_pos (by simp [hxa])]
      rw [List.filterMap_cons, List.filterMap_cons]
      cases f x <;> simp [ih']

theorem flatMap_filter_nil {α β : Type} (g : α → List β) (q : β → Bool) :
    ∀ l : List α, (∀ x ∈ l, (g x).filter q = []) → (l.flatMap g).filter q = [] := by
  intro l
  induction l with
  | nil => intro _; rfl
  | cons x rest ih =>
    intro h
    rw [List.flatMap_cons, List.filter_append, h x (List.mem_cons_self x rest),
      ih (fun y hy => h y (List.mem_cons_of_mem x hy))]
    rfl

theorem flatMap_filter_single {α β : Type} [DecidableEq α] (g : α → List β) (q : β → Bool)
    (a : α) (e : β) (ha : (g a).filter q = [e]) :
    ∀ l : List α, l.countP (fun x => decide (x = a)) = 1 →
      (∀ x ∈ l, x ≠ a → (g x).filter q = []) →
      (l.flatMap g).filter q = [e] := by
  intro l
  induction l with
  | nil => intro h; simp at h
  | cons x rest ih =>
    intro hcount hother
    rw [List.countP_cons] at hcount
    rw [List.flatMap_cons, List.filter_append]
    by_cases hxa : x = a
    · subst hxa
      rw [if_pos (by simp)] at hcount
      have hrest : rest.countP (fun y => decide (y = x)) = 0 := by omega
      have hall : ∀ y ∈ rest, y ≠ x := by
        intro y hy
        have := List.countP_eq_zero.mp hrest y hy
        simpa using this
      rw [ha, flatMap_filter_nil g q rest
        (fun y hy => hother y (List.mem_cons_of_mem x hy) (hall y hy))]
      rfl
    · rw [if_neg (by simp [hxa])] at hcount
      rw [hother x (List.mem_cons_self x rest) hxa,
        ih (by omega) (fun y hy hya => hother y (List.mem_cons_of_mem x hy) hya)]
      rfl

theorem gaborPipeline_err (conv : ConvFun) (img : Image) (ksize : Nat)
    (sigma thetaOverPi lambd gamma : Rat) (hch : img.channels ≠ 3) :
    gaborPipeline conv img ksize sigma thetaOverPi lambd gamma =
      Except.error "cvtColor: invalid number of channels".toList := by
  unfold gaborPipeline cvtColor
  rw [if_pos rfl, if_neg hch]
  rfl

/-- C1: the Filter Step never raises: its first component is always the
basename; a load failure yields `(basename, none)` plus the load-error
line; an exception in any processing stage yields `(basename, none)` plus
the processing-error line. -/
theorem extraire_never_raises (conv : ConvFun) (load : List Char → Option Image)
    (path : List Char) (ksize : Nat) (sigma thetaOverPi lambd gamma : Rat) :
    (extraire_texture_gabor conv load path ksize sigma thetaOverPi lambd gamma).1 =
        basename path ∧
    (load path = none →
      extraireRun conv load path ksize sigma thetaOverPi lambd gamma =
        { result := (basename path, none), logs := [LogEntry.loadError path] }) ∧
    (∀ img e, load path = some img →
      gaborPipeline conv img ksize sigma thetaOverPi lambd gamma = Except.error e →
      extraireRun conv load path ksize sigma thetaOverPi lambd gamma =
        { result := (basename path, none), logs := [LogEntry.procError path e] }) := by
  refine ⟨extraireRun_fst conv load path ksize sigma thetaOverPi lambd gamma, ?_, ?_⟩
  · intro h
    unfold extraireRun
    rw [h]
  · intro img e himg hpipe
    unfold extraireRun
    rw [himg]
    dsimp only
    rw [hpipe]

/-- Witness for C1: a missing file and a 1-channel image (which makes the
grayscale stage raise) at concrete inputs. -/
theorem extraire_never_raises_witness :
    extraireRun (fun _ _ _ => 0) (fun _ => none) "frag_eroded_0000.ppm".toList
        31 4 (1/4) 10 (1/2) =
      { result := (basename "frag_eroded_0000.ppm".toList, none),
        logs := [LogEntry.loadError "frag_eroded_0000.ppm".toList] } ∧
    extraireRun (fun _ _ _ => 0)
        (fun _ => some { width := 1, height := 1, channels := 1, depth := 8, data := [7] })
        "frag_eroded_0001.ppm".toList 31 4 (1/4) 10 (1/2) =
      { result := (basename "frag_eroded_0001.ppm".toList, none),
        logs := [LogEntry.procError "frag_eroded_0001.ppm".toList
          "cvtColor: invalid number of channels".toList] } :=
  ⟨(extraire_never_raises _ _ _ _ _ _ _ _).2.1 rfl,
   (extraire_never_raises _ _ _ _ _ _ _ _).2.2
     { width := 1, height := 1, channels := 1, depth := 8, data := [7] }
     "cvtColor: invalid number of channels".toList rfl
     (gaborPipeline_err _ _ _ _ _ _ _ (by decide))⟩

/-- C9: the first component of the return value of the Filter Step is the
basename of the input path in every case. -/
theorem extraire_result_name_is_basename (conv : ConvFun)
    (load : List Char → Option Image) (path : List Char) (ksize : Nat)
    (sigma thetaOverPi lambd gamma : Rat) :
    (extraire_texture_gabor conv load path ksize sigma thetaOverPi lambd gamma).1 =
      basename path :=
  extraireRun_fst conv load path ksize sigma thetaOverPi lambd gamma

/-- C3: a successfully produced image keeps the width and
height of the loaded image, has one channel and 8-bit depth. -/
theorem extraire_output_shape (conv : ConvFun) (load : List Char → Option Image)
    (path : List Char) (ksize : Nat) (sigma thetaOverPi lambd gamma : Rat)
    (img f : Image) (hload : load path = some img)
    (hf : (extraire_texture_gabor conv load path ksize sigma thetaOverPi lambd gamma).2 =
      some f) :
    f.width = img.width ∧ f.height = img.height ∧ f.channels = 1 ∧ f.depth = 8 := by
  unfold extraire_texture_gabor extraireRun at hf
  rw [hload] at hf
  dsimp only at hf
  by_cases hch : img.channels = 3
  · rw [gaborPipeline_ok conv img ksize sigma thetaOverPi lambd gamma hch] at hf
    unfold filter2D at hf
    dsimp only at hf
    injection hf with hf'
    rw [← hf']
    exact ⟨rfl, rfl, rfl, rfl⟩
  · rw [gaborPipeline_err conv img ksize sigma thetaOverPi lambd gamma hch] at hf
    dsimp only at hf
    exact absurd hf (by simp)

/-- Witness for C3 at a concrete 3-channel image. -/
theorem extraire_output_shape_witness :
    (({ width := 2, height := 3, channels := 1, depth := 8, data := [0] } : Image).width =
      ({ width := 2, height := 3, channels := 3, depth := 8, data := [1, 2, 3] } : Image).width) ∧
    (({ width := 2, height := 3, channels := 1, depth := 8, data := [0] } : Image).height =
      ({ width := 2, height := 3, channels := 3, depth := 8, data := [1, 2, 3] } : Image).height) ∧
    ({ width := 2, height := 3, channels := 1, depth := 8, data := [0] } : Image).channels = 1 ∧
    ({ width := 2, height := 3, channels := 1, depth := 8, data := [0] } : Image).depth = 8 :=
  extraire_output_shape (fun _ _ _ => 0)
    (fun _ => some { width := 2, height := 3, channels := 3, depth := 8, data := [1, 2, 3] })
    "frag_eroded_0002.ppm".toList 31 4 (1/4) 10 (1/2)
    { width := 2, height := 3, channels := 3, depth := 8, data := [1, 2, 3] }
    { width := 2, height := 3, channels := 1, depth := 8, data := [0] } rfl (by decide)

theorem runStep_badchannels (conv : ConvFun) (load : List Char → Option Image)
    (p : List Char) (img : Image) (hload : load p = some img)
    (hch : img.channels ≠ 3) :
    runStep conv load p =
      { result := (basename p, none),
        logs := [LogEntry.procError p
          "cvtColor: invalid number of channels".toList] } := by
  unfold runStep extraireRun
  rw [hload]
  dsimp only
  rw [gaborPipeline_err conv img 31 5 (1/4) 10 (1/2) hch]

/-- C6: with no matching file, the run reports `noImages` and stops:
nothing is processed, no directory is created, nothing is written. -/
theorem batch_no_match_early_exit (conv : ConvFun) (root : List Char)
    (dirList : List (List Char)) (load : List Char → Option Image)
    (h : dirList.filter matchesGlob = []) :
    balayer_et_traiter_images conv root dirList load =
      { processed := [], logs := [LogEntry.noImages root],
        dirsCreated := [], writes := [] } := by
  have hempty : image_files root dirList = [] := by
    unfold image_files
    rw [h]
    rfl
  unfold balayer_et_traiter_images
  rw [hempty]
  rfl

/-- Witness for C6: a directory with a single non-matching entry. -/
theorem batch_no_match_early_exit_witness :
    balayer_et_traiter_images (fun _ _ _ => 0) "r".toList ["autre.txt".toList]
        (fun _ => none) =
      { processed := [], logs := [LogEntry.noImages "r".toList],
        dirsCreated := [], writes := [] } :=
  batch_no_match_early_exit _ _ _ _ (by decide)

/-- C10: when no file produces a present result, the output directory is
never created and nothing is written. -/
theorem output_dir_only_on_success (conv : ConvFun) (root : List Char)
    (dirList : List (List Char)) (load : List Char → Option Image)
    (h : ∀ p ∈ image_files root dirList, (runStep conv load p).result.2 = none) :
    (balayer_et_traiter_images conv root dirList load).dirsCreated = [] ∧
    (balayer_et_traiter_images conv root dirList load).writes = [] := by
  have hw : (balayer_et_traiter_images conv root dirList load).writes = [] := by
    rw [balayer_writes]
    exact List.filterMap_eq_nil_iff.mpr
      (fun p hp => stepWrite_eq_none conv root load p (h p hp))
  exact ⟨by rw [balayer_dirs, hw]; rfl, hw⟩

/-- Witness for C10: a non-empty batch in which the single file fails to
load, so every result is absent. -/
theorem output_dir_only_on_success_witness :
    (balayer_et_traiter_images (fun _ _ _ => 0) "r".toList
      ["frag_eroded_0000.ppm".toList] (fun _ => none)).dirsCreated = [] ∧
    (balayer_et_traiter_images (fun _ _ _ => 0) "r".toList
      ["frag_eroded_0000.ppm".toList] (fun _ => none)).writes = [] :=
  output_dir_only_on_success _ _ _ _ (by decide)

/-- C5: the batch processes exactly the matching files, joined to the
root, in lexicographically sorted order. -/
theorem batch_sorted_deterministic_order (conv : ConvFun) (root : List Char)
    (dirList : List (List Char)) (load : List Char → Option Image) :
    (balayer_et_traiter_images conv root dirList load).processed =
      List.insertionSort StrLe ((dirList.filter matchesGlob).map (joinPath root)) ∧
    List.Sorted StrLe (balayer_et_traiter_images conv root dirList load).processed ∧
    (balayer_et_traiter_images conv root dirList load).processed.Perm
      ((dirList.filter matchesGlob).map (joinPath root)) := by
  have hp := balayer_processed conv root dirList load
  refine ⟨hp, ?_, ?_⟩
  · rw [hp]
    exact sorted_insertionSort_StrLe _
  · rw [hp]
    exact image_files_perm root dirList

/-- C7: every loop iteration runs the filter step with
`ksize=31, sigma=5, theta=pi/4, lambd=10, gamma=0.5`, and every produced
image comes from the Gabor kernel built from those five parameters with
phase offset 0. -/
theorem batch_uses_fixed_gabor_params (conv : ConvFun)
    (load : List Char → Option Image) :
    (∀ p, runStep conv load p = extraireRun conv load p 31 5 (1/4) 10 (1/2)) ∧
    getGaborKernel 31 31 5 (1/4) 10 (1/2) 0 =
      Except.ok { rows := 31, cols := 31, sigma := 5, thetaOverPi := 1/4,
                  lambd := 10, gamma := 1/2, psiOverPi := 0 } ∧
    (∀ p im, (runStep conv load p).result.2 = some im →
      ∃ img, load p = some img ∧ img.channels = 3 ∧
        cvtColor img COLOR_BGR2GRAY = Except.ok
          { width := img.width, height := img.height, channels := 1,
            depth := img.depth, data := grayData img.data } ∧
        filter2D conv
          { width := img.width, height := img.height, channels := 1,
            depth := img.depth, data := grayData img.data } CV_8UC3
          { rows := 31, cols := 31, sigma := 5, thetaOverPi := 1/4,
            lambd := 10, gamma := 1/2, psiOverPi := 0 } = Except.ok im) := by
  refine ⟨fun p => rfl, rfl, ?_⟩
  intro p im h
  cases hload : load p with
  | none =>
    rw [runStep_corrupt conv load p hload] at h
    exact absurd h (by simp)
  | some img =>
    by_cases hch : img.channels = 3
    · rw [runStep_success conv load p img hload hch] at h
      dsimp only at h
      injection h with h'
      refine ⟨img, rfl, hch, ?_, ?_⟩
      · unfold cvtColor
        rw [if_pos rfl, if_pos hch]
      · rw [← h']
        rfl
    · rw [runStep_badchannels conv load p img hload hch] at h
      exact absurd h (by simp)

/-- Witness for C7: a run on one valid 3-channel image. -/
theorem batch_uses_fixed_gabor_params_witness :
    ∃ img, (fun _ : List Char =>
        some ({ width := 1, height := 1, channels := 3, depth := 8,
                data := [1, 2, 3] } : Image)) "frag_eroded_0005.ppm".toList = some img ∧
      img.channels = 3 ∧
      cvtColor img COLOR_BGR2GRAY = Except.ok
        { width := img.width, height := img.height, channels := 1,
          depth := img.depth, data := grayData img.data } ∧
      filter2D (fun _ _ _ => 0)
        { width := img.width, height := img.height, channels := 1,
          depth := img.depth, data := grayData img.data } CV_8UC3
        { rows := 31, cols := 31, sigma := 5, thetaOverPi := 1/4,
          lambd := 10, gamma := 1/2, psiOverPi := 0 } =
        Except.ok { width := 1, height := 1, channels := 1, depth := 8, data := [0] } :=
  (batch_uses_fixed_gabor_params (fun _ _ _ => 0)
    (fun _ => some { width := 1, height := 1, channels := 3, depth := 8, data := [1, 2, 3] })).2.2
    "frag_eroded_0005.ppm".toList
    { width := 1, height := 1, channels := 1, depth := 8, data := [0] } (by decide)

/-- C2 counterexample: `frag_eroded_.ppm.ppm` matches the glob, yet the
name from the code (replace-all) differs from the change-only-the-extension
name of the spec: the code produces `texture_frag_eroded_.png.png`, the claim demands
`texture_frag_eroded_.ppm.png`. -/
theorem output_naming_counterexample :
    matchesGlob "frag_eroded_.ppm.ppm".toList = true ∧
    outFileName "frag_eroded_.ppm.ppm".toList ≠
      specOutFileName "frag_eroded_.ppm.ppm".toList ∧
    outFileName "frag_eroded_.ppm.ppm".toList =
      "texture_frag_eroded_.png.png".toList ∧
    specOutFileName "frag_eroded_.ppm.ppm".toList =
      "texture_frag_eroded_.ppm.png".toList := by
  decide

/-- C2 amended: the output name prefixes `texture_` and replaces every
occurrence of `.ppm` by `.png`; when `.ppm` occurs only as the extension
(no occurrence inside the stem) only the extension changes, and
`frag_eroded_0007.ppm` yields `texture_frag_eroded_0007.png`; the file is
written under `textures_traitees` of the root. -/
theorem output_naming_amended (mid : List Char) (h : containsPpm mid = false) :
    outFileName (fragPrefix ++ mid ++ ppmSuffix) =
      "texture_frag_eroded_".toList ++ mid ++ ".png".toList ∧
    outFileName "frag_eroded_0007.ppm".toList =
      "texture_frag_eroded_0007.png".toList ∧
    (∀ nom, outFileName nom = "texture_".toList ++ replacePpmPng nom) ∧
    (∀ root nom, outPath root nom =
      joinPath (joinPath root outDirName) (outFileName nom)) := by
  refine ⟨?_, by decide, fun nom => rfl, fun root nom => rfl⟩
  have hfrag : ∀ c ∈ fragPrefix, c ≠ '.' := by decide
  rw [outFileName, List.append_assoc,
    replacePpmPng_through_stem fragPrefix (mid ++ ppmSuffix) hfrag,
    replacePpmPng_append_ppm mid h]
  rfl

/-- Witness for C2 amended at stem `0007`. -/
theorem output_naming_amended_witness :
    outFileName (fragPrefix ++ "0007".toList ++ ppmSuffix) =
      "texture_frag_eroded_".toList ++ "0007".toList ++ ".png".toList :=
  (output_naming_amended "0007".toList (by decide)).1

/-- C8: the run is a pure function of the directory contents — any two
listings of the same files give identical runs (so repeated runs are
byte-identical); the writes are one `filterMap` over the sorted matching
files, so each input yields at most one write; and every written path is
the fixed pure function of the basename of the input file. -/
theorem batch_deterministic_idempotent (conv : ConvFun) (root : List Char)
    (load : List Char → Option Image) (dirList dirList' : List (List Char))
    (hperm : dirList.Perm dirList') :
    balayer_et_traiter_images conv root dirList load =
      balayer_et_traiter_images conv root dirList' load ∧
    (balayer_et_traiter_images conv root dirList load).writes =
      (image_files root dirList).filterMap (stepWrite conv root load) ∧
    (balayer_et_traiter_images conv root dirList load).writes.length ≤
      (dirList.filter matchesGlob).length ∧
    ∀ w ∈ (balayer_et_traiter_images conv root dirList load).writes,
      ∃ p ∈ image_files root dirList,
        w.1 = outPath root (basename p) ∧
        (runStep conv load p).result.2 = some w.2 := by
  have himg := image_files_eq_of_perm root hperm
  refine ⟨?_, balayer_writes conv root dirList load, ?_, ?_⟩
  · unfold balayer_et_traiter_images
    rw [himg]
  · rw [balayer_writes, ← image_files_length root dirList]
    exact List.length_filterMap_le _ _
  · intro w hw
    rw [balayer_writes] at hw
    rcases List.mem_filterMap.mp hw with ⟨p, hp, hsw⟩
    unfold stepWrite at hsw
    cases h : (runStep conv load p).result.2 with
    | none =>
      rw [h] at hsw
      exact absurd hsw (by simp)
    | some im =>
      rw [h] at hsw
      dsimp only at hsw
      injection hsw with hw'
      refine ⟨p, hp, ?_, ?_⟩
      · rw [← hw']
        have hb : (runStep conv load p).result.1 = basename p :=
          extraireRun_fst conv load p 31 5 (1/4) 10 (1/2)
        rw [hb]
      · rw [h, ← hw']

/-- Witness for C8: two listing orders of the same two files. -/
theorem batch_deterministic_idempotent_witness :
    balayer_et_traiter_images (fun _ _ _ => 0) "r".toList
        ["frag_eroded_0002.ppm".toList, "frag_eroded_0001.ppm".toList]
        (fun _ => none) =
      balayer_et_traiter_images (fun _ _ _ => 0) "r".toList
        ["frag_eroded_0001.ppm".toList, "frag_eroded_0002.ppm".toList]
        (fun _ => none) :=
  (batch_deterministic_idempotent _ _ _ _ _
    (List.Perm.swap "frag_eroded_0001.ppm".toList "frag_eroded_0002.ppm".toList [])).1

/-- C4: one corrupt file among the matching files is isolated: the run
writes `N - 1` outputs, logs exactly one failure line (for the corrupt
file), the writes are exactly those of the run with the corrupt file
removed from the directory, and every matching file is still processed. -/
theorem batch_failure_isolation (conv : ConvFun) (root : List Char)
    (dirList : List (List Char)) (load : List Char → Option Image) (c : List Char)
    (hcount : (dirList.filter matchesGlob).countP (fun n => decide (n = c)) = 1)
    (hbad : load (joinPath root c) = none)
    (hgood : ∀ p ∈ dirList.filter matchesGlob, p ≠ c →
      ∃ img, load (joinPath root p) = some img ∧ img.channels = 3) :
    (balayer_et_traiter_images conv root dirList load).writes.length =
      (dirList.filter matchesGlob).length - 1 ∧
    (balayer_et_traiter_images conv root dirList load).writes =
      (balayer_et_traiter_images conv root
        (dirList.filter (fun n => decide (n ≠ c))) load).writes ∧
    (balayer_et_traiter_images conv root dirList load).logs.filter isFailureLog =
      [LogEntry.loadError (joinPath root c)] ∧
    (balayer_et_traiter_images conv root dirList load).processed =
      image_files root dirList := by
  have hmem_files : ∀ x ∈ image_files root dirList,
      ∃ q ∈ dirList.filter matchesGlob, x = joinPath root q := by
    intro x hx
    have hx' := (image_files_perm root dirList).mem_iff.mp hx
    rcases List.mem_map.mp hx' with ⟨q, hq, hqe⟩
    exact ⟨q, hq, hqe.symm⟩
  have hvalid : ∀ x ∈ image_files root dirList, x ≠ joinPath root c →
      ∃ img, load x = some img ∧ img.channels = 3 := by
    intro x hx hne
    rcases hmem_files x hx with ⟨q, hq, rfl⟩
    exact hgood q hq (fun h => hne (by rw [h]))
  have hcount' : (image_files root dirList).countP
      (fun x => decide (x = joinPath root c)) = 1 := by
    rw [List.Perm.countP_eq _ (image_files_perm root dirList), List.countP_map]
    rw [List.countP_congr (fun q _ => ?_)]
    · exact hcount
    · show (decide (joinPath root q = joinPath root c) = true) ↔ (decide (q = c) = true)
      simp only [decide_eq_true_eq]
      exact ⟨fun h => joinPath_injective root h, fun h => by rw [h]⟩
  have hw_none : ∀ x ∈ image_files root dirList, x = joinPath root c →
      stepWrite conv root load x = none := by
    intro x _ hx
    rw [hx]
    exact stepWrite_none_of_corrupt conv root load _ hbad
  have hw_some : ∀ x ∈ image_files root dirList, x ≠ joinPath root c →
      (stepWrite conv root load x).isSome = true := by
    intro x hx hne
    rcases hvalid x hx hne with ⟨img, hl, hch⟩
    exact stepWrite_isSome_of_valid conv root load x img hl hch
  refine ⟨?_, ?_, ?_, balayer_processed conv root dirList load⟩
  · rw [balayer_writes, ← image_files_length root dirList]
    exact filterMap_length_unique_none _ _ _ hcount' hw_none hw_some
  · rw [balayer_writes, balayer_writes,
      filterMap_drop_none (stepWrite conv root load) (joinPath root c) _ hw_none,
      image_files_erase root c dirList]
  · have hmem : joinPath root c ∈ image_files root dirList := by
      by_contra hn
      have h0 : (image_files root dirList).countP
          (fun x => decide (x = joinPath root c)) = 0 :=
        List.countP_eq_zero.mpr (fun a ha => by
          simp only [decide_eq_true_eq]
          exact fun he => hn (he ▸ ha))
      omega
    have hne : (image_files root dirList).isEmpty = false := by
      cases hif : image_files root dirList with
      | nil => rw [hif] at hmem; simp at hmem
      | cons a l => rfl
    rw [balayer_logs_of_nonempty conv root dirList load hne, List.filter_append,
      List.filter_cons]
    rw [if_neg (by simp [isFailureLog])]
    rw [flatMap_filter_single (stepLogs conv root load) isFailureLog
      (joinPath root c) (LogEntry.loadError (joinPath root c))
      (stepLogs_corrupt_filter conv root load _ hbad)
      (image_files root dirList) hcount'
      (fun x hx hne2 => by
        rcases hvalid x hx hne2 with ⟨img, hl, hch⟩
        exact stepLogs_valid_filter conv root load x img hl hch)]
    rfl

/-- Witness for C4: two matching files, the first unreadable, the second a
valid 3-channel image; the run writes exactly one output. -/
theorem batch_failure_isolation_witness :
    (balayer_et_traiter_images (fun _ _ _ => 0) "r".toList
      ["frag_eroded_0001.ppm".toList, "frag_eroded_0002.ppm".toList]
      (fun p => if p = "r/frag_eroded_0001.ppm".toList then none
        else some { width := 1, height := 1, channels := 3, depth := 8,
                    data := [1, 2, 3] })).writes.length =
      (["frag_eroded_0001.ppm".toList, "frag_eroded_0002.ppm".toList].filter
        matchesGlob).length - 1 :=
  (batch_failure_isolation (fun _ _ _ => 0) "r".toList
    ["frag_eroded_0001.ppm".toList, "frag_eroded_0002.ppm".toList]
    (fun p => if p = "r/frag_eroded_0001.ppm".toList then none
      else some { width := 1, height := 1, channels := 3, depth := 8,
                  data := [1, 2, 3] })
    "frag_eroded_0001.ppm".toList (by decide) (by decide)
    (by
      intro p hp hne
      rw [show (["frag_eroded_0001.ppm".toList,
          "frag_eroded_0002.ppm".toList].filter matchesGlob) =
          ["frag_eroded_0001.ppm".toList, "frag_eroded_0002.ppm".toList] from by decide] at hp
      rcases List.mem_cons.mp hp with h1 | h1
      · exact absurd h1 hne
      · have h2 : p = "frag_eroded_0002.ppm".toList := by simpa using h1
        subst h2
        exact ⟨{ width := 1, height := 1, channels := 3, depth := 8, data := [1, 2, 3] },
          by decide, rfl⟩)).1
